import Mathlib

/-
Shallow embedding of `src/elasticsearch_dsl/document.py` (the document
mapping and mutation layer of elasticsearch-dsl).  Python dictionaries
holding JSON-like data are modelled as ordered association lists over a
`Value` type; the transport client ("the engine") is a parameter mapping
requests to raw responses; exceptions are modelled with `Except` over an
explicit error type whose constructors mirror the exception classes used
by the source (`ValidationException`, `IllegalOperation`, `ValueError`,
`RequestError`, `NotFoundError`, `KeyError`).
-/

namespace EsDsl

/-- A JSON-like value, the payload currency of the document layer. -/
inductive Value where
  | vNull
  | vBool (b : Bool)
  | vNum (n : Int)
  | vStr (s : String)
  | vList (xs : List Value)
  | vObj (fields : List (String × Value))

/-- Lookup in an ordered association list (first binding wins), modelling
Python dict item access on our list representation. -/
def lookupKey {α : Type} : List (String × α) → String → Option α
  | [], _ => none
  | (k, v) :: rest, key => if k = key then some v else lookupKey rest key

/-- Set a key in an ordered association list: an existing binding is
replaced in place (Python dicts keep insertion position on overwrite),
a new key is appended at the end. -/
def setKey {α : Type} : List (String × α) → String → α → List (String × α)
  | [], key, v => [(key, v)]
  | (k, w) :: rest, key, v =>
      if k = key then (k, v) :: rest else (k, w) :: setKey rest key v

/-- True when the value is one Python treats as empty for serialization
purposes: `None`, `[]` or `\x7b\x7d` (see `skip_empty` in `to_dict`). -/
def isEmptyValue : Value → Bool
  | .vNull => true
  | .vList [] => true
  | .vObj [] => true
  | _ => false

/-- One doc record of an mget response body.  `found` and `error` model
the truthiness of `doc.get('found')` and `doc.get('error')`; `id` models
`doc['_id']`; `source` carries the `_source` payload used when the
record is materialized into an instance. -/
structure MgetDoc where
  id : String
  found : Bool
  error : Bool
  source : List (String × Value) := []

/-- The exception classes raised by document.py, as an explicit error
type.  `requestError` and `notFoundError` carry the offending mget doc
records exactly as the source attaches them to the raised exception. -/
inductive Err where
  | validation (msg : String)
  | illegalOperation (msg : String)
  | valueError (msg : String)
  | keyError (key : String)
  | requestError (status : Nat) (msg : String) (docs : List MgetDoc)
  | notFoundError (status : Nat) (msg : String) (docs : List MgetDoc)

/-! ### mget response scan (document.py lines 229-260) -/

/-- One iteration of the `for doc in results['docs']` loop of
`Document.mget`.  The state is `(objs, error_docs, missing_docs)`;
a slot materialized from a found record is `some doc` (standing for
`cls.from_es(doc)`), a `None` placeholder is `none`. -/
def mgetScanStep (raiseOnError : Bool) (missing : String)
    (st : List (Option MgetDoc) × List MgetDoc × List MgetDoc) (doc : MgetDoc) :
    List (Option MgetDoc) × List MgetDoc × List MgetDoc :=
  let (objs, errorDocs, missingDocs) := st
  if doc.found then
    -- with errors already queued the source skips the expensive
    -- materialization, since the call will raise anyway
    if errorDocs.isEmpty && missingDocs.isEmpty then
      (objs ++ [some doc], errorDocs, missingDocs)
    else (objs, errorDocs, missingDocs)
  else if doc.error then
    let errorDocs := if raiseOnError then errorDocs ++ [doc] else errorDocs
    let objs := if missing = "none" then objs ++ [none] else objs
    (objs, errorDocs, missingDocs)
  else if missing = "raise" then
    (objs, errorDocs, missingDocs ++ [doc])
  else if missing = "none" then
    (objs ++ [none], errorDocs, missingDocs)
  else
    (objs, errorDocs, missingDocs)

/-- The full response scan of `Document.mget`. -/
def mgetScan (raiseOnError : Bool) (missing : String) (docs : List MgetDoc) :
    List (Option MgetDoc) × List MgetDoc × List MgetDoc :=
  docs.foldl (mgetScanStep raiseOnError missing) ([], [], [])

/-- The message attached to the `RequestError` raised by mget. -/
def mgetRequestErrMsg (errorDocs : List MgetDoc) : String :=
  "Required routing not provided for documents " ++
    String.intercalate ", " (errorDocs.map MgetDoc.id) ++ "."

/-- The message attached to the `NotFoundError` raised by mget. -/
def mgetNotFoundMsg (missingDocs : List MgetDoc) : String :=
  "Documents " ++ String.intercalate ", " (missingDocs.map MgetDoc.id) ++
    " not found."

/-- `Document.mget`, from the validation of the `missing` argument
through the scan of the engine response `respDocs` (the engine returns
one record per requested id, in request order).  Returns the assembled
slot list, or the error the source raises. -/
def mget (raiseOnError : Bool) (missing : String) (respDocs : List MgetDoc) :
    Except Err (List (Option MgetDoc)) :=
  if missing ≠ "raise" ∧ missing ≠ "skip" ∧ missing ≠ "none" then
    .error (.valueError "'missing' must be 'raise', 'skip', or 'none'.")
  else
    let (objs, errorDocs, missingDocs) := mgetScan raiseOnError missing respDocs
    match errorDocs, missingDocs with
    | _ :: _, _ =>
        .error (.requestError 400 (mgetRequestErrMsg errorDocs) errorDocs)
    | [], _ :: _ =>
        .error (.notFoundError 404 (mgetNotFoundMsg missingDocs) missingDocs)
    | [], [] => .ok objs

/-! ### Metadata containers and instances -/

/-- Modelled from the spec: DOC_META_FIELDS lives in utils.py, which is
not under src/.  The spec describes it as the subset of metadata sent as
write parameters (routing, parent, version style keys, plus the id);
the resolved index is handled separately from it. -/
def DOC_META_FIELDS : List String :=
  ["id", "parent", "routing", "version", "version_type"]

/-- Modelled from the spec: META_FIELDS lives in utils.py, which is not
under src/.  The spec describes it as a superset of DOC_META_FIELDS that
also covers the index and response-only fields such as the write result. -/
def META_FIELDS : List String :=
  DOC_META_FIELDS ++ ["index", "using", "score", "result"]

/-- A document instance: the payload mapping (field name to value) and
the Metadata Container (the `meta` attribute), each an ordered mapping. -/
structure Instance where
  payload : List (String × Value)
  meta : List (String × Value)

/-- The index recorded on the Metadata Container, as read by
`getattr(self.meta, 'index', None)`; a missing or non-string entry
yields none. -/
def Instance.metaIndex (inst : Instance) : Option String :=
  match lookupKey inst.meta "index" with
  | some (.vStr s) => some s
  | _ => none

/-- Extraction of the present DOC_META_FIELDS from the Metadata
Container, as done before every write
(`dict((k, self.meta[k]) for k in DOC_META_FIELDS if k in self.meta)`). -/
def docMetaParams (inst : Instance) : List (String × Value) :=
  DOC_META_FIELDS.filterMap fun k =>
    (lookupKey inst.meta k).map fun v => (k, v)

/-- Copy every response field named `_k` for `k` in META_FIELDS back
onto the Metadata Container (`setattr(self.meta, k, meta['_' + k])`),
as save and update do after the engine responds. -/
def applyRespMeta (meta resp : List (String × Value)) : List (String × Value) :=
  META_FIELDS.foldl
    (fun m k =>
      match lookupKey resp ("_" ++ k) with
      | some v => setKey m k v
      | none => m)
    meta

/-- Modelled from the spec: `ObjectBase.to_dict` lives in utils.py,
which is not under src/.  The spec says it serializes the payload
fields through their field descriptors (an opaque per-field contract,
modelled as the identity) and, when skipEmpty is set, omits fields
whose value is empty (null, empty sequence, empty mapping). -/
def toDict (inst : Instance) (skipEmpty : Bool) : List (String × Value) :=
  if skipEmpty then inst.payload.filter fun p => !isEmptyValue p.2
  else inst.payload

/-- Modelled from the spec: `utils.merge` is not under src/.  The spec
says update first merges the given field values into the local
instance; each supplied field is written into the payload mapping. -/
def mergeFields (inst : Instance) (fields : List (String × Value)) : Instance :=
  { inst with payload := fields.foldl (fun p kv => setKey p kv.1 kv.2) inst.payload }

/-- Modelled from the spec: `ObjectBase.full_clean` lives in utils.py,
which is not under src/.  The spec says validation enforces that every
payload key exists in the bound schema fields and fails fast on an
invalid payload. -/
def fullClean (schemaFields : List String) (inst : Instance) : Bool :=
  inst.payload.all fun p => schemaFields.contains p.1

/-! ### Index resolution (document.py lines 129-138) -/

/-- The chained `if index is None` defaulting of `Document._get_index`:
the explicit argument, else the Metadata Container index, else the
bound Index name. -/
def resolveIndex (explicit metaIdx clsIdx : Option String) : Option String :=
  match explicit with
  | some i => some i
  | none =>
      match metaIdx with
      | some i => some i
      | none => clsIdx

/-- The Python membership test `'*' in index` on the resolved name. -/
def hasWildcard (s : String) : Bool :=
  s.data.contains '*'

/-- `Document._get_index`: resolve, then fail when nothing resolved and
an index is required, or when the resolved name contains a wildcard. -/
def getIndex (explicit metaIdx clsIdx : Option String) (required : Bool) :
    Except Err (Option String) :=
  match resolveIndex explicit metaIdx clsIdx with
  | none => if required then .error (.validation "No index") else .ok none
  | some i =>
      if hasWildcard i then
        .error (.validation "You cannot write to a wildcard index.")
      else .ok (some i)

/-- `Document._get_index` with its default `required=True`, returning
the resolved name itself. -/
def getIndexReq (explicit metaIdx clsIdx : Option String) : Except Err String :=
  match resolveIndex explicit metaIdx clsIdx with
  | none => .error (.validation "No index")
  | some i =>
      if hasWildcard i then
        .error (.validation "You cannot write to a wildcard index.")
      else .ok i

/-! ### Index binding construction (document.py lines 27-51) -/

/-- An Index bound to a document type.  `defaultSentinel` is the
process-wide DEFAULT_INDEX object; the `is not DEFAULT_INDEX` identity
test of the source distinguishes it from any other Index, including one
whose name is also a pattern.  Per the spec the sentinel carries the
name pattern `*`. -/
inductive IndexBinding where
  | defaultSentinel
  | custom (name usingAlias : String)
deriving DecidableEq

/-- The name carried by a bound Index (`_name`); the default sentinel
is named `*` per the spec. -/
def IndexBinding.name : IndexBinding → String
  | .defaultSentinel => "*"
  | .custom n _ => n

/-- The declared `class Index` configuration block, with optional
`name` and `using` attributes read via getattr with defaults. -/
structure IndexOpts where
  name : Option String
  usingAlias : Option String

/-- The base-walking loop of `IndexMeta.construct_index` when no Index
options are declared: `getattr(b, '_index', DEFAULT_INDEX)` yields the
sentinel for a base with no binding (modelled as `none`), and the first
base whose binding is not the sentinel wins. -/
def firstNonDefault : List (Option IndexBinding) → IndexBinding
  | [] => .defaultSentinel
  | b :: bs =>
      match b.getD .defaultSentinel with
      | .defaultSentinel => firstNonDefault bs
      | .custom n u => .custom n u

/-- `IndexMeta.construct_index`: inherit down the bases when no options
are declared, otherwise build a fresh Index from the options with
defaults `*` and `"default"` (settings, aliases and analyzers are
forwarded to the Index collaborator and carry no data used here). -/
def constructIndex (opts : Option IndexOpts) (bases : List (Option IndexBinding)) :
    IndexBinding :=
  match opts with
  | none => firstNonDefault bases
  | some o => .custom (o.name.getD "*") (o.usingAlias.getD "default")

/-! ### Schema construction (document.py lines 54-79) -/

/-- Modelled from the spec: `Mapping.field` lives in mapping.py, which
is not under src/.  The spec says registration keeps keys unique in
declaration order with the last registration for a name winning. -/
def mappingField {α : Type} (m : List (String × α)) (n : String) (f : α) :
    List (String × α) :=
  setKey m n f

/-- Modelled from the spec: `Mapping.update` lives in mapping.py, which
is not under src/.  The spec says it merges the fields of the other
schema into this one and, when updateOnly is set, never overwrites an
already present key. -/
def mappingUpdate {α : Type} (m other : List (String × α)) (updateOnly : Bool) :
    List (String × α) :=
  other.foldl
    (fun s nf =>
      match lookupKey s nf.1 with
      | some _ => if updateOnly then s else mappingField s nf.1 nf.2
      | none => s ++ [nf])
    m

/-- The first half of `DocumentOptions.__init__`: register every
declared Field attribute of the class body into the fresh mapping, in
declaration order. -/
def registerFields {α : Type} (attrs : List (String × α)) : List (String × α) :=
  attrs.foldl (fun s nf => mappingField s nf.1 nf.2) []

/-- The field-collection part of `DocumentOptions.__init__`: register
every declared Field attribute into the fresh mapping, then fold the
mappings of the bases in declaration order with `update_only=True`. -/
def docOptionsFields {α : Type} (attrs : List (String × α))
    (bases : List (List (String × α))) : List (String × α) :=
  bases.foldl (fun s b => mappingUpdate s b true) (registerFields attrs)

/-! ### Instance-level operations (document.py lines 262-415) -/

/-- A transport call, carrying exactly the arguments document.py passes
to the engine client (extra caller kwargs are not modelled). -/
inductive Request where
  | indexReq (index docType : String) (body : List (String × Value))
      (docMeta : List (String × Value))
  | updateReq (index docType : String) (doc : List (String × Value))
      (docAsUpsert detectNoop refresh : Bool) (docMeta : List (String × Value))
  | deleteReq (index docType : String) (docMeta : List (String × Value))

/-- The outcome of an instance-level operation: the returned value or
raised error, the state of the local instance when the operation ends
(Python mutates the caller instance in place, so mutations persist even
when an exception propagates), and the transport calls issued. -/
structure OpOutcome (α : Type) where
  result : Except Err α
  inst : Instance
  calls : List Request

/-- The message of the IllegalOperation raised by update() without
fields. -/
def updateNoFieldsMsg : String :=
  "You cannot call update() without updating individual fields. " ++
    "If you wish to update the entire object use save()."

/-- Everything `Document.update` does before the engine call: the
empty-fields check, the local merge of the supplied fields, the full
serialization and projection onto the updated keys, the DOC_META_FIELDS
extraction and the index resolution (evaluated inside the argument list
of `es.update`, hence before the transport call).  On success the
carried instance is the local state at the moment the request is
issued. -/
def updatePrepare (clsIdx : Option String) (docTypeName : String)
    (inst : Instance) (index : Option String)
    (detectNoop docAsUpsert refresh : Bool)
    (fields : List (String × Value)) : OpOutcome Request :=
  if fields.isEmpty then
    ⟨.error (.illegalOperation updateNoFieldsMsg), inst, []⟩
  else
    let inst1 := mergeFields inst fields
    let values := toDict inst1 true
    let doc := fields.map fun kv => (kv.1, (lookupKey values kv.1).getD .vNull)
    let docMeta := docMetaParams inst1
    match getIndexReq index inst1.metaIndex clsIdx with
    | .error e => ⟨.error e, inst1, []⟩
    | .ok i =>
        ⟨.ok (.updateReq i docTypeName doc docAsUpsert detectNoop refresh docMeta),
          inst1, []⟩

/-- The post-response step shared by update and save: copy every
response field named after a META_FIELDS entry back onto the Metadata
Container. -/
def opFinishMeta (inst : Instance) (resp : List (String × Value)) : Instance :=
  { inst with meta := applyRespMeta inst.meta resp }

/-- `Document.update` against an engine mapping requests to raw
responses; returns None (unit) like the source. -/
def updateOp (engine : Request → List (String × Value))
    (clsIdx : Option String) (docTypeName : String) (inst : Instance)
    (index : Option String) (detectNoop docAsUpsert refresh : Bool)
    (fields : List (String × Value)) : OpOutcome Unit :=
  let out := updatePrepare clsIdx docTypeName inst index detectNoop docAsUpsert
    refresh fields
  match out.result with
  | .error e => ⟨.error e, out.inst, []⟩
  | .ok req => ⟨.ok (), opFinishMeta out.inst (engine req), [req]⟩

/-- Everything `Document.save` does before the engine call: the
optional full_clean validation, the DOC_META_FIELDS extraction, the
index resolution and the payload serialization (both evaluated inside
the argument list of `es.index`, hence before the transport call).  No
local state is touched on this path. -/
def savePrepare (schemaFields : List String) (clsIdx : Option String)
    (docTypeName : String) (inst : Instance) (index : Option String)
    (validate : Bool) : OpOutcome Request :=
  if validate && !fullClean schemaFields inst then
    ⟨.error (.validation "validation failed"), inst, []⟩
  else
    let docMeta := docMetaParams inst
    match getIndexReq index inst.metaIndex clsIdx with
    | .error e => ⟨.error e, inst, []⟩
    | .ok i => ⟨.ok (.indexReq i docTypeName (toDict inst true) docMeta), inst, []⟩

/-- The Python comparison `meta['result'] == 'created'`: true exactly
for the string value "created" (a non-string compares unequal to a
string without error). -/
def isCreated : Value → Bool
  | .vStr s => s = "created"
  | _ => false

/-- `Document.save`: validate, resolve, issue the index request, copy
the response META_FIELDS back, then return whether the response result
field equals "created" (a response without a result field raises a
KeyError, after the meta copy). -/
def saveOp (engine : Request → List (String × Value))
    (schemaFields : List String) (clsIdx : Option String)
    (docTypeName : String) (inst : Instance) (index : Option String)
    (validate : Bool) : OpOutcome Bool :=
  let out := savePrepare schemaFields clsIdx docTypeName inst index validate
  match out.result with
  | .error e => ⟨.error e, out.inst, []⟩
  | .ok req =>
      let resp := engine req
      let inst2 := opFinishMeta out.inst resp
      match lookupKey resp "result" with
      | some v => ⟨.ok (isCreated v), inst2, [req]⟩
      | none => ⟨.error (.keyError "result"), inst2, [req]⟩

/-- Everything `Document.delete` does before the engine call: the
DOC_META_FIELDS extraction and the index resolution. -/
def deletePrepare (clsIdx : Option String) (docTypeName : String)
    (inst : Instance) (index : Option String) : OpOutcome Request :=
  let docMeta := docMetaParams inst
  match getIndexReq index inst.metaIndex clsIdx with
  | .error e => ⟨.error e, inst, []⟩
  | .ok i => ⟨.ok (.deleteReq i docTypeName docMeta), inst, []⟩

/-- `Document.delete`: resolve and issue the delete request; the
response is ignored and the local instance never mutated. -/
def deleteOp (engine : Request → List (String × Value))
    (clsIdx : Option String) (docTypeName : String) (inst : Instance)
    (index : Option String) : OpOutcome Unit :=
  let out := deletePrepare clsIdx docTypeName inst index
  match out.result with
  | .error e => ⟨.error e, out.inst, []⟩
  | .ok req =>
      let _ := engine req
      ⟨.ok (), out.inst, [req]⟩

/-- `Document.to_dict(include_meta=True)`: serialize the payload, wrap
it under _source next to the re-prefixed present DOC_META_FIELDS, the
resolved index (resolution runs with required=False; the index key is
omitted when nothing resolves) and the type name. -/
def toDictIncludeMeta (docTypeName : String) (clsIdx : Option String)
    (inst : Instance) (skipEmpty : Bool) :
    Except Err (List (String × Value)) :=
  let d := toDict inst skipEmpty
  let metaKVs := DOC_META_FIELDS.filterMap fun k =>
    (lookupKey inst.meta k).map fun v => ("_" ++ k, v)
  match getIndex none inst.metaIndex clsIdx false with
  | .error e => .error e
  | .ok idx =>
      let metaKVs := match idx with
        | some i => setKey metaKVs "_index" (.vStr i)
        | none => metaKVs
      .ok (setKey (setKey metaKVs "_type" (.vStr docTypeName)) "_source" (.vObj d))

/-! ### Supporting lemmas -/

theorem lookupKey_append_of_isSome {α : Type} (l t : List (String × α))
    (key : String) (h : (lookupKey l key).isSome) :
    lookupKey (l ++ t) key = lookupKey l key := by
  induction l with
  | nil => simp [lookupKey] at h
  | cons p rest ih =>
      by_cases hk : p.1 = key
      · simp [lookupKey, hk]
      · simp only [lookupKey, hk, if_false, List.cons_append, if_neg hk] at h ⊢
        exact ih h

theorem lookupKey_append_of_none {α : Type} (l t : List (String × α))
    (key : String) (h : lookupKey l key = none) :
    lookupKey (l ++ t) key = lookupKey t key := by
  induction l with
  | nil => rfl
  | cons p rest ih =>
      by_cases hk : p.1 = key
      · simp [lookupKey, hk] at h
      · simp only [lookupKey, if_neg hk] at h
        simpa only [List.cons_append, lookupKey, if_neg hk] using ih h

theorem lookupKey_setKey_self {α : Type} (l : List (String × α))
    (key : String) (v : α) : lookupKey (setKey l key v) key = some v := by
  induction l with
  | nil => simp [setKey, lookupKey]
  | cons p rest ih =>
      by_cases hk : p.1 = key
      · simp [setKey, hk, lookupKey]
      · simp [setKey, hk, lookupKey, ih]

theorem lookupKey_setKey_ne {α : Type} (l : List (String × α))
    (k key : String) (v : α) (h : k ≠ key) :
    lookupKey (setKey l k v) key = lookupKey l key := by
  induction l with
  | nil => simp [setKey, lookupKey, h]
  | cons p rest ih =>
      by_cases hk : p.1 = k
      · simp [setKey, hk, lookupKey, h]
      · simp [setKey, hk, lookupKey, ih]

theorem mergeFields_meta (inst : Instance) (fields : List (String × Value)) :
    (mergeFields inst fields).meta = inst.meta := rfl

theorem mergeFields_metaIndex (inst : Instance) (fields : List (String × Value)) :
    (mergeFields inst fields).metaIndex = inst.metaIndex := rfl

theorem getIndexReq_ne_illegal (e m c : Option String) (msg : String) :
    getIndexReq e m c ≠ .error (.illegalOperation msg) := by
  simp only [getIndexReq]
  cases resolveIndex e m c with
  | none => simp
  | some i => by_cases h : hasWildcard i <;> simp [h]

theorem getIndexReq_wildcard (e m c : Option String) (i : String)
    (hres : resolveIndex e m c = some i) (hw : hasWildcard i = true) :
    getIndexReq e m c = .error (.validation "You cannot write to a wildcard index.") := by
  simp only [getIndexReq, hres, hw, if_true]

theorem updateOp_result_error_iff (engine : Request → List (String × Value))
    (clsIdx : Option String) (dt : String) (inst : Instance)
    (index : Option String) (dn dau r : Bool) (fields : List (String × Value))
    (x : Err) :
    (updateOp engine clsIdx dt inst index dn dau r fields).result = .error x ↔
      (updatePrepare clsIdx dt inst index dn dau r fields).result = .error x := by
  simp only [updateOp]
  cases h : (updatePrepare clsIdx dt inst index dn dau r fields).result <;> simp [h]

/-! ### Claim theorems -/

/-- C5: update() with no field keyword arguments raises IllegalOperation,
issues no transport call and leaves the local instance unchanged; with at
least one field argument the illegal-operation error is never raised. -/
theorem update_requires_fields (engine : Request → List (String × Value))
    (clsIdx : Option String) (dt : String) (inst : Instance)
    (index : Option String) (dn dau r : Bool)
    (fields : List (String × Value)) :
    updateOp engine clsIdx dt inst index dn dau r [] =
      ⟨.error (.illegalOperation updateNoFieldsMsg), inst, []⟩
    ∧ (fields ≠ [] →
        ∀ m, (updateOp engine clsIdx dt inst index dn dau r fields).result ≠
          .error (.illegalOperation m)) := by
  constructor
  · rfl
  · intro hf m hcontra
    rw [updateOp_result_error_iff] at hcontra
    cases fields with
    | nil => exact hf rfl
    | cons f fs =>
        simp only [updatePrepare, List.isEmpty_cons, Bool.false_eq_true,
          if_false] at hcontra
        revert hcontra
        cases h : getIndexReq index (mergeFields inst (f :: fs)).metaIndex clsIdx with
        | error e =>
            simp only [h]
            intro hcontra
            have : e = Err.illegalOperation m := by
              simpa using hcontra
            rw [this] at h
            exact getIndexReq_ne_illegal _ _ _ m h
        | ok i => simp [h]

/-- C6: a save that reaches the engine returns true exactly when the
result field of the response equals the string "created", and false for
every other result value. -/
theorem save_result_created (engine : Request → List (String × Value))
    (schemaFields : List String) (clsIdx : Option String) (dt : String)
    (inst : Instance) (index : Option String) (validate : Bool)
    (req : Request) (v : Value)
    (hprep : (savePrepare schemaFields clsIdx dt inst index validate).result = .ok req)
    (hv : lookupKey (engine req) "result" = some v) :
    (saveOp engine schemaFields clsIdx dt inst index validate).result =
      .ok (isCreated v)
    ∧ ((saveOp engine schemaFields clsIdx dt inst index validate).result =
        .ok true ↔ v = .vStr "created") := by
  have hrun : (saveOp engine schemaFields clsIdx dt inst index validate).result =
      .ok (isCreated v) := by
    simp only [saveOp, hprep, hv]
  refine ⟨hrun, ?_⟩
  rw [hrun]
  cases v <;> simp [isCreated]

/-- C6 witness: a concrete save whose engine response reports "updated"
returns false. -/
theorem save_result_created_witness :
    (saveOp (fun _ => [("result", .vStr "updated")]) ["title"] (some "idx")
        "doc" ⟨[], []⟩ none true).result = .ok (isCreated (.vStr "updated"))
    ∧ ((saveOp (fun _ => [("result", .vStr "updated")]) ["title"] (some "idx")
        "doc" ⟨[], []⟩ none true).result = .ok true ↔
        Value.vStr "updated" = .vStr "created") :=
  save_result_created (fun _ => [("result", .vStr "updated")]) ["title"]
    (some "idx") "doc" ⟨[], []⟩ none true
    (.indexReq "idx" "doc" [] []) (.vStr "updated") rfl rfl

/-- C8: with no explicit index config the binding is the first base, in
declaration order, whose bound Index is not the default sentinel, and
the sentinel (named by the pattern star) when no such base exists; an
explicit config yields a fresh Index with the given name (default the
star pattern) and connection alias (default "default"). -/
theorem index_binding_resolution (bases : List (Option IndexBinding))
    (o : IndexOpts) :
    constructIndex (some o) bases =
      .custom (o.name.getD "*") (o.usingAlias.getD "default")
    ∧ IndexBinding.name .defaultSentinel = "*"
    ∧ ((∀ b ∈ bases, b.getD .defaultSentinel = .defaultSentinel) →
        constructIndex none bases = .defaultSentinel)
    ∧ (∀ (pre post : List (Option IndexBinding)) (ib : IndexBinding),
        ib ≠ .defaultSentinel →
        (∀ b ∈ pre, b.getD .defaultSentinel = .defaultSentinel) →
        constructIndex none (pre ++ some ib :: post) = ib) := by
  refine ⟨rfl, rfl, ?_, ?_⟩
  · intro h
    simp only [constructIndex]
    induction bases with
    | nil => rfl
    | cons b bs ih =>
        have hb := h b (by simp)
        simp only [firstNonDefault, hb]
        exact ih fun x hx => h x (by simp [hx])
  · intro pre post ib hne hpre
    simp only [constructIndex]
    induction pre with
    | nil =>
        simp only [List.nil_append, firstNonDefault, Option.getD_some]
        cases ib with
        | defaultSentinel => exact absurd rfl hne
        | custom n u => rfl
    | cons b bs ih =>
        have hb := hpre b (by simp)
        simp only [List.cons_append, firstNonDefault, hb]
        exact ih fun x hx => hpre x (by simp [hx])

/-- C9: an update that issues a request sends a doc body whose keys are
exactly the supplied field names and whose values are read off the full
serialization of the locally merged instance, with keys the
serialization dropped sent as null; the request also carries the
DOC_META_FIELDS extracted after the merge. -/
theorem update_doc_projection (clsIdx : Option String) (dt : String)
    (inst : Instance) (index : Option String) (dn dau r : Bool)
    (fields : List (String × Value)) (req : Request)
    (hprep : (updatePrepare clsIdx dt inst index dn dau r fields).result = .ok req) :
    ∃ i doc, req = .updateReq i dt doc dau dn r
        (docMetaParams (mergeFields inst fields))
      ∧ doc.map Prod.fst = fields.map Prod.fst
      ∧ ∀ p ∈ doc,
          p.2 = (lookupKey (toDict (mergeFields inst fields) true) p.1).getD .vNull := by
  by_cases hempty : fields.isEmpty
  · simp [updatePrepare, hempty] at hprep
  · simp only [updatePrepare, hempty, if_false, Bool.false_eq_true] at hprep
    revert hprep
    cases h : getIndexReq index (mergeFields inst fields).metaIndex clsIdx with
    | error e => simp [h]
    | ok i =>
        simp only [h]
        intro hprep
        refine ⟨i, _, (Except.ok.injEq _ _).mp hprep.symm, ?_, ?_⟩
        · simp
        · intro p hp
          rcases List.mem_map.mp hp with ⟨kv, _, hkv⟩
          rw [← hkv]

/-- C9 witness: a concrete update request over one supplied field whose
merged value is empty and hence serialized away, so it is sent as null. -/
theorem update_doc_projection_witness :
    ∃ i doc,
      Request.updateReq "idx" "doc" [("title", .vNull)] false true false [] =
        .updateReq i "doc" doc false true false
          (docMetaParams (mergeFields ⟨[], []⟩ [("title", .vNull)]))
      ∧ doc.map Prod.fst = [("title", Value.vNull)].map Prod.fst
      ∧ ∀ p ∈ doc,
          p.2 = (lookupKey
            (toDict (mergeFields ⟨[], []⟩ [("title", Value.vNull)]) true) p.1).getD
            .vNull :=
  update_doc_projection (some "idx") "doc" ⟨[], []⟩ none true false false
    [("title", .vNull)] (.updateReq "idx" "doc" [("title", .vNull)] false true false [])
    rfl

/-- C1 as stated is refuted: at a concrete instance, update merges the
supplied field into the local payload before the engine request is
issued, so the instance differs from its pre-call state at the moment
the request goes out. -/
theorem update_merges_before_request_cex :
    (updatePrepare (some "idx") "doc" ⟨[], []⟩ none true false false
        [("title", .vStr "x")]).result =
      .ok (.updateReq "idx" "doc" [("title", .vStr "x")] false true false [])
    ∧ (updatePrepare (some "idx") "doc" ⟨[], []⟩ none true false false
        [("title", .vStr "x")]).inst ≠ (⟨[], []⟩ : Instance) := by
  refine ⟨rfl, fun h => ?_⟩
  have h2 : (⟨[("title", Value.vStr "x")], []⟩ : Instance) = ⟨[], []⟩ := h
  simp at h2

/-- C1 amended: save and delete never touch the local instance before
the transport call (and delete never at all); update merges exactly the
supplied fields into the payload before the request is issued, while
the Metadata Container stays unchanged until the engine responds. -/
theorem pre_response_mutation_discipline
    (engine : Request → List (String × Value)) (schemaFields : List String)
    (clsIdx : Option String) (dt : String) (inst : Instance)
    (index : Option String) (validate dn dau r : Bool)
    (fields : List (String × Value)) :
    (savePrepare schemaFields clsIdx dt inst index validate).inst = inst
    ∧ (deletePrepare clsIdx dt inst index).inst = inst
    ∧ (deleteOp engine clsIdx dt inst index).inst = inst
    ∧ (updatePrepare clsIdx dt inst index dn dau r fields).inst.meta = inst.meta
    ∧ (fields ≠ [] →
        (updatePrepare clsIdx dt inst index dn dau r fields).inst =
          mergeFields inst fields) := by
  refine ⟨?_, ?_, ?_, ?_, ?_⟩
  · simp only [savePrepare]
    by_cases hv : validate && !fullClean schemaFields inst
    · simp [hv]
    · simp only [hv, if_false, Bool.false_eq_true]
      cases h : getIndexReq index inst.metaIndex clsIdx <;> simp [h]
  · simp only [deletePrepare]
    cases h : getIndexReq index inst.metaIndex clsIdx <;> simp [h]
  · simp only [deleteOp, deletePrepare]
    cases h : getIndexReq index inst.metaIndex clsIdx <;> simp [h]
  · simp only [updatePrepare]
    by_cases hempty : fields.isEmpty
    · simp [hempty]
    · simp only [hempty, if_false, Bool.false_eq_true]
      cases h : getIndexReq index (mergeFields inst fields).metaIndex clsIdx <;>
        simp [h, mergeFields_meta]
  · intro hf
    cases fields with
    | nil => exact absurd rfl hf
    | cons f fs =>
        simp only [updatePrepare, List.isEmpty_cons, Bool.false_eq_true, if_false]
        cases h : getIndexReq index (mergeFields inst (f :: fs)).metaIndex clsIdx <;>
          simp [h]

/-- C4: when the resolved index name (explicit argument, else the meta
index, else the bound Index name) contains a wildcard, save, delete and
update (called with fields, as update requires) all fail with a
validation error and issue zero transport calls. -/
theorem wildcard_write_rejected (engine : Request → List (String × Value))
    (schemaFields : List String) (clsIdx index : Option String) (dt : String)
    (inst : Instance) (validate dn dau r : Bool)
    (fields : List (String × Value)) (i : String)
    (hres : resolveIndex index inst.metaIndex clsIdx = some i)
    (hw : hasWildcard i = true) :
    ((saveOp engine schemaFields clsIdx dt inst index validate).calls = []
      ∧ ∃ m, (saveOp engine schemaFields clsIdx dt inst index validate).result =
          .error (.validation m))
    ∧ ((deleteOp engine clsIdx dt inst index).calls = []
      ∧ ∃ m, (deleteOp engine clsIdx dt inst index).result = .error (.validation m))
    ∧ (fields ≠ [] →
        (updateOp engine clsIdx dt inst index dn dau r fields).calls = []
        ∧ ∃ m, (updateOp engine clsIdx dt inst index dn dau r fields).result =
            .error (.validation m)) := by
  have hidx : getIndexReq index inst.metaIndex clsIdx =
      .error (.validation "You cannot write to a wildcard index.") :=
    getIndexReq_wildcard _ _ _ i hres hw
  refine ⟨?_, ?_, ?_⟩
  · have hprep : ∃ m, savePrepare schemaFields clsIdx dt inst index validate =
        ⟨.error (.validation m), inst, []⟩ := by
      simp only [savePrepare]
      by_cases hv : validate && !fullClean schemaFields inst
      · exact ⟨"validation failed", by simp [hv]⟩
      · exact ⟨"You cannot write to a wildcard index.", by simp [hv, hidx]⟩
    rcases hprep with ⟨m, hm⟩
    have : saveOp engine schemaFields clsIdx dt inst index validate =
        ⟨.error (.validation m), inst, []⟩ := by
      simp only [saveOp, hm]
    exact ⟨by rw [this], m, by rw [this]⟩
  · have : deleteOp engine clsIdx dt inst index =
        ⟨.error (.validation "You cannot write to a wildcard index."), inst, []⟩ := by
      simp only [deleteOp, deletePrepare, hidx]
    exact ⟨by rw [this], _, by rw [this]⟩
  · intro hf
    cases fields with
    | nil => exact absurd rfl hf
    | cons f fs =>
        have hidx2 : getIndexReq index (mergeFields inst (f :: fs)).metaIndex clsIdx =
            .error (.validation "You cannot write to a wildcard index.") := by
          rw [mergeFields_metaIndex]
          exact hidx
        have : updateOp engine clsIdx dt inst index dn dau r (f :: fs) =
            ⟨.error (.validation "You cannot write to a wildcard index."),
              mergeFields inst (f :: fs), []⟩ := by
          simp only [updateOp, updatePrepare, List.isEmpty_cons,
            Bool.false_eq_true, if_false, hidx2]
        exact ⟨by rw [this], _, by rw [this]⟩

/-- C4 witness: a concrete instance bound to the index pattern logs-*
is rejected by save, delete and update with no transport call. -/
theorem wildcard_write_rejected_witness :
    (((saveOp (fun _ => []) [] (some "logs-*") "doc" ⟨[], []⟩ none true).calls = []
      ∧ ∃ m, (saveOp (fun _ => []) [] (some "logs-*") "doc" ⟨[], []⟩ none true).result =
          .error (.validation m))
    ∧ ((deleteOp (fun _ => []) (some "logs-*") "doc" ⟨[], []⟩ none).calls = []
      ∧ ∃ m, (deleteOp (fun _ => []) (some "logs-*") "doc" ⟨[], []⟩ none).result =
          .error (.validation m))
    ∧ (([("a", Value.vNull)] : List (String × Value)) ≠ [] →
        (updateOp (fun _ => []) (some "logs-*") "doc" ⟨[], []⟩ none true false false
            [("a", .vNull)]).calls = []
        ∧ ∃ m, (updateOp (fun _ => []) (some "logs-*") "doc" ⟨[], []⟩ none true false
            false [("a", .vNull)]).result = .error (.validation m))) :=
  wildcard_write_rejected (fun _ => []) [] (some "logs-*") none "doc" ⟨[], []⟩
    true true false false [("a", .vNull)] "logs-*" rfl rfl

theorem lookupKey_filterMap_prefixed (ks : List String)
    (f : String → Option Value) (key : String)
    (h : ∀ k ∈ ks, ("_" ++ k) ≠ key) :
    lookupKey (ks.filterMap fun k => (f k).map fun v => ("_" ++ k, v)) key = none := by
  induction ks with
  | nil => rfl
  | cons k rest ih =>
      have hrest : ∀ x ∈ rest, ("_" ++ x) ≠ key := fun x hx =>
        h x (List.mem_cons_of_mem _ hx)
      cases hf : f k with
      | none =>
          simp only [List.filterMap_cons, hf, Option.map_none']
          exact ih hrest
      | some v =>
          simp only [List.filterMap_cons, hf, Option.map_some']
          simp only [lookupKey, if_neg (h k (List.mem_cons_self _ _))]
          exact ih hrest

/-- C10: to_dict with include_meta raises the wildcard validation error
whenever the index resolution (run with required set to false) lands on
a name containing a wildcard, even though no write is issued; only a
resolution to no index at all produces a payload, and that payload
omits the index key while carrying the serialized source. -/
theorem to_dict_meta_wildcard (dt : String) (clsIdx : Option String)
    (inst : Instance) (skipEmpty : Bool) :
    (∀ i, resolveIndex none inst.metaIndex clsIdx = some i →
        hasWildcard i = true →
        toDictIncludeMeta dt clsIdx inst skipEmpty =
          .error (.validation "You cannot write to a wildcard index."))
    ∧ (resolveIndex none inst.metaIndex clsIdx = none →
        ∃ l, toDictIncludeMeta dt clsIdx inst skipEmpty = .ok l
          ∧ lookupKey l "_index" = none
          ∧ lookupKey l "_source" = some (.vObj (toDict inst skipEmpty))) := by
  constructor
  · intro i hres hw
    simp only [toDictIncludeMeta, getIndex, hres, hw, if_true]
  · intro hres
    simp only [toDictIncludeMeta, getIndex, hres]
    refine ⟨_, rfl, ?_, ?_⟩
    · rw [lookupKey_setKey_ne _ _ _ _ (by decide)]
      rw [lookupKey_setKey_ne _ _ _ _ (by decide)]
      exact lookupKey_filterMap_prefixed DOC_META_FIELDS _ "_index" (by decide)
    · exact lookupKey_setKey_self _ _ _

theorem mgetScanAux_skip (rE : Bool) (docs : List MgetDoc)
    (herr : ∀ d ∈ docs, d.error = false) :
    ∀ objs, docs.foldl (mgetScanStep rE "skip") (objs, [], []) =
      (objs ++ (docs.filter fun d => d.found).map some, [], []) := by
  induction docs with
  | nil => simp
  | cons d rest ih =>
      intro objs
      have hd := herr d (List.mem_cons_self _ _)
      have hrest : ∀ x ∈ rest, x.error = false := fun x hx =>
        herr x (List.mem_cons_of_mem _ hx)
      simp only [List.foldl_cons]
      by_cases hf : d.found
      · rw [show mgetScanStep rE "skip" (objs, [], []) d = (objs ++ [some d], [], [])
          from by simp [mgetScanStep, hf]]
        rw [ih hrest]
        simp [List.filter_cons, hf]
      · rw [show mgetScanStep rE "skip" (objs, [], []) d = (objs, [], [])
          from by simp [mgetScanStep, hf, hd]]
        rw [ih hrest]
        simp [List.filter_cons, hf]

theorem mgetScanAux_none (rE : Bool) (docs : List MgetDoc)
    (herr : ∀ d ∈ docs, d.error = false) :
    ∀ objs, docs.foldl (mgetScanStep rE "none") (objs, [], []) =
      (objs ++ docs.map (fun d => if d.found then some d else none), [], []) := by
  induction docs with
  | nil => simp
  | cons d rest ih =>
      intro objs
      have hd := herr d (List.mem_cons_self _ _)
      have hrest : ∀ x ∈ rest, x.error = false := fun x hx =>
        herr x (List.mem_cons_of_mem _ hx)
      simp only [List.foldl_cons]
      by_cases hf : d.found
      · rw [show mgetScanStep rE "none" (objs, [], []) d = (objs ++ [some d], [], [])
          from by simp [mgetScanStep, hf]]
        rw [ih hrest]
        simp [hf]
      · rw [show mgetScanStep rE "none" (objs, [], []) d = (objs ++ [none], [], [])
          from by simp [mgetScanStep, hf, hd]]
        rw [ih hrest]
        simp [hf]

theorem mgetScanAux_raise (rE : Bool) (docs : List MgetDoc)
    (herr : ∀ d ∈ docs, d.error = false) :
    ∀ objs ms,
      (docs.foldl (mgetScanStep rE "raise") (objs, [], ms)).2.1 = []
      ∧ (docs.foldl (mgetScanStep rE "raise") (objs, [], ms)).2.2 =
          ms ++ docs.filter (fun d => !d.found) := by
  induction docs with
  | nil => simp
  | cons d rest ih =>
      intro objs ms
      have hd := herr d (List.mem_cons_self _ _)
      have hrest : ∀ x ∈ rest, x.error = false := fun x hx =>
        herr x (List.mem_cons_of_mem _ hx)
      simp only [List.foldl_cons]
      by_cases hf : d.found
      · by_cases hms : ms.isEmpty
        · rw [show mgetScanStep rE "raise" (objs, [], ms) d = (objs ++ [some d], [], ms)
            from by simp [mgetScanStep, hf, hms]]
          rw [(ih hrest (objs ++ [some d]) ms).1, (ih hrest (objs ++ [some d]) ms).2]
          simp [List.filter_cons, hf]
        · rw [show mgetScanStep rE "raise" (objs, [], ms) d = (objs, [], ms)
            from by simp [mgetScanStep, hf, hms]]
          rw [(ih hrest objs ms).1, (ih hrest objs ms).2]
          simp [List.filter_cons, hf]
      · rw [show mgetScanStep rE "raise" (objs, [], ms) d = (objs, [], ms ++ [d])
          from by simp [mgetScanStep, hf, hd]]
        rw [(ih hrest objs (ms ++ [d])).1, (ih hrest objs (ms ++ [d])).2]
        simp [List.filter_cons, hf]

theorem mgetScanAux_allfound (rE : Bool) (missing : String) (docs : List MgetDoc)
    (hall : ∀ d ∈ docs, d.found = true) :
    ∀ objs, docs.foldl (mgetScanStep rE missing) (objs, [], []) =
      (objs ++ docs.map some, [], []) := by
  induction docs with
  | nil => simp
  | cons d rest ih =>
      intro objs
      have hd := hall d (List.mem_cons_self _ _)
      have hrest : ∀ x ∈ rest, x.found = true := fun x hx =>
        hall x (List.mem_cons_of_mem _ hx)
      simp only [List.foldl_cons]
      rw [show mgetScanStep rE missing (objs, [], []) d = (objs ++ [some d], [], [])
        from by simp [mgetScanStep, hd]]
      rw [ih hrest]
      simp

theorem mgetScanAux_errors (docs : List MgetDoc) :
    ∀ objs es ms,
      (docs.foldl (mgetScanStep true "raise") (objs, es, ms)).2.1 =
        es ++ docs.filter (fun d => !d.found && d.error) := by
  induction docs with
  | nil => simp
  | cons d rest ih =>
      intro objs es ms
      simp only [List.foldl_cons]
      by_cases hf : d.found
      · by_cases hempty : es.isEmpty && ms.isEmpty
        · rw [show mgetScanStep true "raise" (objs, es, ms) d = (objs ++ [some d], es, ms)
            from by simp [mgetScanStep, hf, hempty]]
          rw [ih (objs ++ [some d]) es ms]
          simp [List.filter_cons, hf]
        · rw [show mgetScanStep true "raise" (objs, es, ms) d = (objs, es, ms)
            from by simp [mgetScanStep, hf, hempty]]
          rw [ih objs es ms]
          simp [List.filter_cons, hf]
      · by_cases he : d.error
        · rw [show mgetScanStep true "raise" (objs, es, ms) d =
              (objs, es ++ [d], ms)
            from by simp [mgetScanStep, hf, he]]
          rw [ih objs (es ++ [d]) ms]
          simp [List.filter_cons, hf, he]
        · rw [show mgetScanStep true "raise" (objs, es, ms) d =
              (objs, es, ms ++ [d])
            from by simp [mgetScanStep, hf, he]]
          rw [ih objs es (ms ++ [d])]
          simp [List.filter_cons, hf, he]

/-- C2: over a response with no error docs, mget preserves request
order and applies the missing policy per slot: skip drops missing
slots, none yields null placeholders in place, raise fails the whole
call with a not-found batch error referencing every missing slot (and
returns every slot materialized when nothing is missing). -/
theorem mget_missing_policy (rE : Bool) (docs : List MgetDoc)
    (herr : ∀ d ∈ docs, d.error = false) :
    mget rE "skip" docs = .ok ((docs.filter fun d => d.found).map some)
    ∧ mget rE "none" docs =
        .ok (docs.map fun d => if d.found then some d else none)
    ∧ ((docs.filter fun d => !d.found) ≠ [] →
        mget rE "raise" docs = .error (.notFoundError 404
          (mgetNotFoundMsg (docs.filter fun d => !d.found))
          (docs.filter fun d => !d.found)))
    ∧ ((∀ d ∈ docs, d.found = true) →
        mget rE "raise" docs = .ok (docs.map some)) := by
  refine ⟨?_, ?_, ?_, ?_⟩
  · simp only [mget, if_neg (by decide : ¬("skip" ≠ "raise" ∧ "skip" ≠ "skip"
      ∧ "skip" ≠ "none")), mgetScan]
    rw [mgetScanAux_skip rE docs herr []]
    simp
  · simp only [mget, if_neg (by decide : ¬("none" ≠ "raise" ∧ "none" ≠ "skip"
      ∧ "none" ≠ "none")), mgetScan]
    rw [mgetScanAux_none rE docs herr []]
    simp
  · intro hne
    rcases hscan : mgetScan rE "raise" docs with ⟨o, e, m⟩
    have he : e = [] := by
      have := (mgetScanAux_raise rE docs herr [] []).1
      rw [show docs.foldl (mgetScanStep rE "raise") ([], [], []) =
        mgetScan rE "raise" docs from rfl, hscan] at this
      simpa using this
    have hm : m = docs.filter (fun d => !d.found) := by
      have := (mgetScanAux_raise rE docs herr [] []).2
      rw [show docs.foldl (mgetScanStep rE "raise") ([], [], []) =
        mgetScan rE "raise" docs from rfl, hscan] at this
      simpa using this
    simp only [mget, if_neg (by decide : ¬("raise" ≠ "raise" ∧ "raise" ≠ "skip"
      ∧ "raise" ≠ "none")), hscan]
    subst he hm
    cases hfil : docs.filter (fun d => !d.found) with
    | nil => exact absurd hfil hne
    | cons x xs => simp [hfil]
  · intro hall
    simp only [mget, if_neg (by decide : ¬("raise" ≠ "raise" ∧ "raise" ≠ "skip"
      ∧ "raise" ≠ "none")), mgetScan]
    rw [mgetScanAux_allfound rE "raise" docs hall []]
    simp

/-- C2 witness: for requests A, B, C with only B missing, skip yields
the A and C instances, none yields a null in the B slot, and raise
fails with the not-found batch error referencing B. -/
theorem mget_missing_policy_witness :
    mget true "skip" [⟨"A", true, false, []⟩, ⟨"B", false, false, []⟩,
        ⟨"C", true, false, []⟩] =
      .ok ((([⟨"A", true, false, []⟩, ⟨"B", false, false, []⟩,
        ⟨"C", true, false, []⟩] : List MgetDoc).filter fun d => d.found).map some)
    ∧ mget true "none" [⟨"A", true, false, []⟩, ⟨"B", false, false, []⟩,
        ⟨"C", true, false, []⟩] =
      .ok (([⟨"A", true, false, []⟩, ⟨"B", false, false, []⟩,
        ⟨"C", true, false, []⟩] : List MgetDoc).map
          fun d => if d.found then some d else none)
    ∧ ((([⟨"A", true, false, []⟩, ⟨"B", false, false, []⟩,
        ⟨"C", true, false, []⟩] : List MgetDoc).filter fun d => !d.found) ≠ [] →
        mget true "raise" [⟨"A", true, false, []⟩, ⟨"B", false, false, []⟩,
          ⟨"C", true, false, []⟩] = .error (.notFoundError 404
          (mgetNotFoundMsg (([⟨"A", true, false, []⟩, ⟨"B", false, false, []⟩,
            ⟨"C", true, false, []⟩] : List MgetDoc).filter fun d => !d.found))
          (([⟨"A", true, false, []⟩, ⟨"B", false, false, []⟩,
            ⟨"C", true, false, []⟩] : List MgetDoc).filter fun d => !d.found)))
    ∧ ((∀ d ∈ ([⟨"A", true, false, []⟩, ⟨"B", false, false, []⟩,
        ⟨"C", true, false, []⟩] : List MgetDoc), d.found = true) →
        mget true "raise" [⟨"A", true, false, []⟩, ⟨"B", false, false, []⟩,
          ⟨"C", true, false, []⟩] =
          .ok (([⟨"A", true, false, []⟩, ⟨"B", false, false, []⟩,
            ⟨"C", true, false, []⟩] : List MgetDoc).map some)) :=
  mget_missing_policy true
    [⟨"A", true, false, []⟩, ⟨"B", false, false, []⟩, ⟨"C", true, false, []⟩]
    (by decide)

/-- C3: a response holding both an engine-error doc (with raiseOnError
set) and a genuinely missing doc (with missing raise) fails once, after
the full scan, with the request batch error carrying exactly the error
docs, not with the not-found error. -/
theorem mget_error_precedence (docs : List MgetDoc)
    (herrdoc : ∃ d ∈ docs, d.found = false ∧ d.error = true)
    (_hmissdoc : ∃ d ∈ docs, d.found = false ∧ d.error = false) :
    mget true "raise" docs =
      .error (.requestError 400
        (mgetRequestErrMsg (docs.filter fun d => !d.found && d.error))
        (docs.filter fun d => !d.found && d.error)) := by
  rcases hscan : mgetScan true "raise" docs with ⟨o, e, m⟩
  have he : e = docs.filter (fun d => !d.found && d.error) := by
    have := mgetScanAux_errors docs [] [] []
    rw [show docs.foldl (mgetScanStep true "raise") ([], [], []) =
      mgetScan true "raise" docs from rfl, hscan] at this
    simpa using this
  simp only [mget, if_neg (by decide : ¬("raise" ≠ "raise" ∧ "raise" ≠ "skip"
    ∧ "raise" ≠ "none")), hscan]
  subst he
  rcases herrdoc with ⟨d, hd, hdf, hde⟩
  have hmem : d ∈ docs.filter (fun x => !x.found && x.error) :=
    List.mem_filter.mpr ⟨hd, by simp [hdf, hde]⟩
  cases hfil : docs.filter (fun x => !x.found && x.error) with
  | nil => rw [hfil] at hmem; cases hmem
  | cons x xs => simp [hfil]

/-- C3 witness: a batch with one routing-error doc and one genuinely
missing doc raises the request error carrying the error doc. -/
theorem mget_error_precedence_witness :
    mget true "raise" [⟨"E", false, true, []⟩, ⟨"B", false, false, []⟩] =
      .error (.requestError 400
        (mgetRequestErrMsg (([⟨"E", false, true, []⟩, ⟨"B", false, false, []⟩] :
          List MgetDoc).filter fun d => !d.found && d.error))
        (([⟨"E", false, true, []⟩, ⟨"B", false, false, []⟩] :
          List MgetDoc).filter fun d => !d.found && d.error)) :=
  mget_error_precedence [⟨"E", false, true, []⟩, ⟨"B", false, false, []⟩]
    (by decide) (by decide)

theorem mappingUpdate_cons {α : Type} (s : List (String × α)) (kf : String × α)
    (rest : List (String × α)) (uo : Bool) :
    mappingUpdate s (kf :: rest) uo =
      mappingUpdate
        (match lookupKey s kf.1 with
          | some _ => if uo then s else mappingField s kf.1 kf.2
          | none => s ++ [kf]) rest uo := by
  simp [mappingUpdate]

theorem mappingUpdate_lookup_isSome {α : Type} (other : List (String × α)) :
    ∀ (s : List (String × α)) (n : String), (lookupKey s n).isSome →
      lookupKey (mappingUpdate s other true) n = lookupKey s n := by
  induction other with
  | nil => intro s n _; rfl
  | cons kf rest ih =>
      intro s n hs
      rw [mappingUpdate_cons]
      cases hk : lookupKey s kf.1 with
      | some g =>
          simp only [hk, if_true]
          exact ih s n hs
      | none =>
          simp only [hk]
          have happ : lookupKey (s ++ [kf]) n = lookupKey s n :=
            lookupKey_append_of_isSome s [kf] n hs
          rw [ih (s ++ [kf]) n (by rw [happ]; exact hs), happ]

theorem mappingUpdate_lookup_new {α : Type} (other : List (String × α)) :
    ∀ (s : List (String × α)) (n : String) (f : α), lookupKey s n = none →
      lookupKey other n = some f →
      lookupKey (mappingUpdate s other true) n = some f := by
  induction other with
  | nil => intro s n f _ hother; simp [lookupKey] at hother
  | cons kg rest ih =>
      intro s n f hs hother
      rw [mappingUpdate_cons]
      by_cases hkn : kg.1 = n
      · have hg : kg.2 = f := by
          simp only [lookupKey, hkn] at hother
          rcases kg with ⟨k, g⟩
          simpa using hother
        rw [show lookupKey s kg.1 = none from hkn ▸ hs]
        have hlook : lookupKey (s ++ [kg]) n = some f := by
          rw [lookupKey_append_of_none s [kg] n hs]
          simp [lookupKey, hkn, hg]
        rw [mappingUpdate_lookup_isSome rest (s ++ [kg]) n (by rw [hlook]; rfl)]
        exact hlook
      · have hother2 : lookupKey rest n = some f := by
          simpa [lookupKey, hkn] using hother
        cases hk : lookupKey s kg.1 with
        | some g =>
            simp only [hk, if_true]
            exact ih s n f hs hother2
        | none =>
            simp only [hk]
            have hs2 : lookupKey (s ++ [kg]) n = none := by
              rw [lookupKey_append_of_none s [kg] n hs]
              simp [lookupKey, hkn]
            exact ih (s ++ [kg]) n f hs2 hother2

/-- C7: in the schema built for a child with declared fields `attrs`
over one base schema, every field declared only on the base is present
with the base descriptor, a field registered by the child keeps the
child descriptor across the inheritance merge, and every base field
name is present on the child. -/
theorem schema_inheritance_merge {α : Type} (attrs base : List (String × α)) :
    (∀ n f, lookupKey base n = some f →
        lookupKey (registerFields attrs) n = none →
        lookupKey (docOptionsFields attrs [base]) n = some f)
    ∧ (∀ n, (lookupKey (registerFields attrs) n).isSome →
        lookupKey (docOptionsFields attrs [base]) n =
          lookupKey (registerFields attrs) n)
    ∧ (∀ n, (lookupKey base n).isSome →
        (lookupKey (docOptionsFields attrs [base]) n).isSome) := by
  have hchild : docOptionsFields attrs [base] =
      mappingUpdate (registerFields attrs) base true := by
    simp [docOptionsFields]
  refine ⟨?_, ?_, ?_⟩
  · intro n f hb hr
    rw [hchild]
    exact mappingUpdate_lookup_new base (registerFields attrs) n f hr hb
  · intro n hr
    rw [hchild]
    exact mappingUpdate_lookup_isSome base (registerFields attrs) n hr
  · intro n hb
    rw [hchild]
    cases hr : lookupKey (registerFields attrs) n with
    | some g =>
        rw [mappingUpdate_lookup_isSome base (registerFields attrs) n
          (by rw [hr]; rfl), hr]
        rfl
    | none =>
        rcases Option.isSome_iff_exists.mp hb with ⟨f, hf⟩
        rw [mappingUpdate_lookup_new base (registerFields attrs) n f hr hf]
        rfl

end EsDsl
